import Mathlib

/-!
Verification of the ephemeral preview lifecycle manager of the
`code-with-the-flow` repository.

The preview table is a Python dict mapping a port number to a per-slot dict
with keys `project_name`, `pid`, `creation_time`, `public_url`.  Python dicts
preserve insertion order, so a table is embedded as an association list in
insertion order with (in every reachable state) pairwise distinct keys.
A slot field that is either absent from the per-slot dict or set to `None`
is embedded as `none`; the few call sites where the two would differ
(`dict.get` with a default) are noted at the corresponding definition.
Timestamps (`time.time()` floats) are embedded as integers, and process ids
as naturals, which is faithful for every comparison the code performs.
-/

namespace VibeCoder

/-- One slot of the preview table: the value dict stored under a port key.
Mirrors the shape used by `src/preview.py` and `vibe-coder/app.py`
(`vibe-coder/main.py` uses the same dict minus `public_url`, which it simply
never populates). -/
structure Details where
  project_name : Option String
  pid : Option Nat
  creation_time : Option Int
  public_url : Option String
deriving Repr, DecidableEq

/-- The preview table `ACTIVE_PREVIEWS`, in dict insertion order. -/
abbrev Table := List (Nat × Details)

/-- Dict lookup `ACTIVE_PREVIEWS.get(port)`. -/
def lookup (t : Table) (port : Nat) : Option Details :=
  (t.find? (fun e => e.1 == port)).map (fun e => e.2)

/-- A fresh empty per-slot dict with every key absent. -/
def emptyDetails : Details :=
  { project_name := none, pid := none, creation_time := none, public_url := none }

/-- Python truthiness of an optional string: `None` and the empty string are
falsy, every other string is truthy. -/
def truthyStr : Option String → Bool
  | none => false
  | some s => !(s == "")

/-- The comparison `details.get("creation_time", float("inf")) < oldest_time`
from the rotation loops, where `none` on either side plays the role of the
`float("inf")` sentinel (an absent `creation_time` key defaults to infinity,
and `oldest_time` starts out as infinity). -/
def ltOptTime : Option Int → Option Int → Bool
  | none, _ => false
  | some _, none => true
  | some t, some u => decide (t < u)

/-- The rotation loop shared verbatim by `src/preview.py` and
`vibe-coder/app.py`: scan the table keeping the strictly smallest
`creation_time` seen so far (`oldest_port`, `oldest_time` accumulators). -/
def oldestLoop : Table → Option Nat → Option Int → Option Nat
  | [], op, _ => op
  | (port, d) :: rest, op, ot =>
    if ltOptTime d.creation_time ot then oldestLoop rest (some port) d.creation_time
    else oldestLoop rest op ot

/-- The value of `oldest_port` after the rotation loop has scanned the whole
table starting from `oldest_port = None`, `oldest_time = float("inf")`. -/
def oldestPort (t : Table) : Option Nat :=
  oldestLoop t none none

namespace SrcPreview

/-- `PREVIEW_PORT_RANGE = range(8000, 8021)` from `src/preview.py`. -/
def PREVIEW_PORT_RANGE : List Nat := List.range' 8000 21

/-- The first loop of `find_available_port` in `src/preview.py`: walk the
port range looking for a port that is untracked or whose `project_name` is
`None`; an untracked port is first initialised to an empty dict (mutating
the table), then returned. -/
def freeScan : List Nat → Table → Option (Nat × Table)
  | [], _ => none
  | p :: ps, t =>
    match lookup t p with
    | none => some (p, t ++ [(p, emptyDetails)])
    | some d =>
      if d.project_name = none then some (p, t)
      else freeScan ps t

/-- `find_available_port` from `src/preview.py` (lines 19-42): return a free
slot from the configured range if one exists (possibly inserting an empty
dict for an untracked port), otherwise the result of the rotation loop.
Returns the chosen port together with the possibly-mutated table. -/
def find_available_port (t : Table) : Option Nat × Table :=
  match freeScan PREVIEW_PORT_RANGE t with
  | some (p, t2) => (some p, t2)
  | none => (oldestPort t, t)

end SrcPreview

/-- Specification-side recursive description of the rotation loop: the first
entry of the table attaining the minimal `creation_time`, together with that
time.  Entries without a `creation_time` are skipped, exactly as the loop
skips them (an absent time compares as infinity). -/
def firstOldest : Table → Option (Nat × Int)
  | [] => none
  | (port, d) :: rest =>
    match d.creation_time, firstOldest rest with
    | none, r => r
    | some t, none => some (port, t)
    | some t, some (q, m) => if t ≤ m then some (port, t) else some (q, m)

/-- Decidable form of "port `p` is tracked and occupied in table `t`". -/
def occupiedAt (t : Table) (p : Nat) : Bool :=
  ((lookup t p).map (fun d => d.project_name.isSome)).getD false

namespace VibeApp

/-- `PREVIEW_PORT_RANGE = range(9000, 9021)` from `vibe-coder/app.py`. -/
def PREVIEW_PORT_RANGE : List Nat := List.range' 9000 21

/-- The first loop of `find_available_port` in `vibe-coder/app.py` (lines
101-115): unlike `src/preview.py`, it iterates over the *tracked table*
(`ACTIVE_PREVIEWS.items()`), not over the configured port range, returning
the first tracked slot whose `project_name` is `None`. -/
def findFreeTracked : Table → Option Nat
  | [] => none
  | (p, d) :: rest =>
    if d.project_name = none then some p else findFreeTracked rest

/-- `find_available_port` from `vibe-coder/app.py`: a free tracked slot if
one exists, otherwise the result of the rotation loop over the table. -/
def find_available_port (t : Table) : Option Nat :=
  match findFreeTracked t with
  | some p => some p
  | none => oldestPort t

end VibeApp

namespace VibeMain

/-- `PREVIEW_PORT_RANGE = range(9000, 9021)` from `vibe-coder/main.py`. -/
def PREVIEW_PORT_RANGE : List Nat := List.range' 9000 21

/-- `find_available_port` from `vibe-coder/main.py` (lines 115-120): the
first configured port that is neither tracked in `ACTIVE_PREVIEWS` nor
reported in use by the operating system (`is_port_in_use`, embedded as the
oracle `inUse`); `None` when no such port exists — this variant performs no
rotation at all. -/
def find_available_port (inUse : Nat → Bool) (t : Table) : Option Nat :=
  PREVIEW_PORT_RANGE.find? (fun p => (lookup t p).isNone && !(inUse p))

end VibeMain

/-- Python dict assignment `ACTIVE_PREVIEWS[port] = d`: replace the value in
place if the key is already present (keeping its position in insertion
order), otherwise append a new binding at the end. -/
def dictSet (t : Table) (port : Nat) (d : Details) : Table :=
  if (t.find? (fun e => e.1 == port)).isSome then
    t.map (fun e => if e.1 = port then (port, d) else e)
  else t ++ [(port, d)]

namespace SrcPreview

/-- Outcome of an `os.kill(pid, SIGTERM)` call as observed by the reaper:
success, `ProcessLookupError`, or any other exception. -/
inductive KillResult
  | ok
  | processLookupError
  | otherError
deriving Repr, DecidableEq

/-- The reaper's expiry test
`details.get("project_name") and (now - details.get("creation_time", 0)) > max_lifetime_seconds`
from `src/preview.py` line 56.  Python truthiness of the occupant is modelled
by `truthyStr`; `getD 0` models the `.get` default for an absent
`creation_time` key (occupied slots always carry a number in reachable
states — a stored `None` would raise `TypeError` in the source). -/
def expired (now maxL : Int) (d : Details) : Bool :=
  truthyStr d.project_name && decide (now - d.creation_time.getD 0 > maxL)

/-- The three clearing assignments at the end of the reaper body
(lines 66-68): `project_name`, `pid` and `creation_time` are set to `None`;
`public_url` is untouched. -/
def clearSlot (d : Details) : Details :=
  { d with project_name := none, pid := none, creation_time := none }

/-- Clear the occupancy fields of the slot stored under `port`. -/
def setCleared (t : Table) (port : Nat) : Table :=
  t.map (fun e => if e.1 = port then (e.1, clearSlot e.2) else e)

/-- The body of one reaper cycle iterating over the snapshot
`list(ACTIVE_PREVIEWS.items())` while mutating the live table.  `os.kill` is
embedded as the oracle `kill` (invoked only when the stored pid is truthy,
per the `if details["pid"]` guard); its outcome is recorded in the returned
log but cannot influence the table, because the `except ProcessLookupError`
and `except Exception` clauses catch every failure and the three clearing
assignments run after the `try` block regardless. -/
def reaperLoop (kill : Nat → KillResult) (now maxL : Int) :
    List (Nat × Details) → Table → Table × List KillResult
  | [], live => (live, [])
  | (port, d) :: rest, live =>
    if expired now maxL d then
      let log0 : List KillResult :=
        if d.pid.getD 0 ≠ 0 then [kill (d.pid.getD 0)] else []
      let r := reaperLoop kill now maxL rest (setCleared live port)
      (r.1, log0 ++ r.2)
    else reaperLoop kill now maxL rest live

/-- One cycle of `reaper_task` from `src/preview.py` (lines 52-68): the loop
body run once over the current table, between two sleeps. -/
def reaperCycle (kill : Nat → KillResult) (now maxL : Int) (t : Table) :
    Table × List KillResult :=
  reaperLoop kill now maxL t t

/-- Ports of the snapshot entries that pass the expiry test. -/
def expiredPorts (now maxL : Int) (snap : List (Nat × Details)) : List Nat :=
  (snap.filter (fun e => expired now maxL e.2)).map (fun e => e.1)

/-- The dict-literal assignment performed by `_start_one_cloudflared_tunnel`
in `src/preview.py` (lines 99-104) once the tunnel URL is found: the slot's
`public_url` is set, its `pid` is set to the cloudflared process id
(`tunnelPid` here), and `project_name` and `creation_time` are set to
`None`. -/
def tunnelDiscoveryWrite (t : Table) (port : Nat) (tunnelPid : Nat)
    (url : String) : Table :=
  dictSet t port
    { public_url := some url, project_name := none, pid := some tunnelPid,
      creation_time := none }

end SrcPreview

namespace VibeApp

/-- The three assignments at `vibe-coder/app.py` lines 247-249 that bind a
freshly started server to the chosen slot:
`ACTIVE_PREVIEWS[port]["pid"] = server_proc.pid`,
`... ["project_name"] = p_name`, `... ["creation_time"] = time.time()`.
Only those three keys of the slot dict are written. -/
def bindSlot (t : Table) (port : Nat) (pid : Nat) (p : String) (now : Int) :
    Table :=
  t.map (fun e =>
    if e.1 = port then
      (e.1,
        { e.2 with
            pid := some pid,
            project_name := some p,
            creation_time := some now })
    else e)

end VibeApp

/-- Decidable form of the claimed all-or-nothing occupancy invariant:
occupant, process handle and creation time jointly absent or jointly
present. -/
def slotAtomic (d : Details) : Bool :=
  (d.project_name.isNone && d.pid.isNone && d.creation_time.isNone) ||
  (d.project_name.isSome && d.pid.isSome && d.creation_time.isSome)

/-- Decidable form of the amended occupancy invariant: occupant and creation
time jointly absent or jointly present, and an occupied slot always has a
process handle — but a free slot may carry a (tunnel) process handle. -/
def occAligned (d : Details) : Bool :=
  (d.project_name.isNone == d.creation_time.isNone) &&
  (d.project_name.isNone || d.pid.isSome)

/-- The slot value written by tunnel discovery for port 8000 when the
cloudflared process has pid 123. -/
def c1Slot : Details :=
  { project_name := none, pid := some 123, creation_time := none,
    public_url := some "https://x.trycloudflare.com" }

/-- A one-slot occupied table used to instantiate the C1 invariant theorem. -/
def c1WitnessTable : Table :=
  [(8000, { project_name := some "a", pid := some 1, creation_time := some 0,
            public_url := some "https://u.trycloudflare.com" })]

/-- The occupied slot of the C3 witness table: occupied by project `"a"` at
time 100 with a live server pid. -/
def c3Slot : Details :=
  { project_name := some "a", pid := some 5, creation_time := some 100,
    public_url := some "https://u.trycloudflare.com" }

/-- The C3 witness table. -/
def c3Table : Table := [(8000, c3Slot)]

/-- A two-slot table for the C8 witness, both slots expired at time 400. -/
def c8Table : Table :=
  [(8000, c3Slot),
   (8001, { project_name := some "b", pid := some 6, creation_time := some 120,
            public_url := none })]

/-- Concrete full table for the rotation tie-break counterexample: all 21
ports of `range(8000, 8021)` are occupied; ports 8001 and 8000 were inserted
into the dict in that order and share the oldest `creation_time` 0, every
other port has `creation_time` 5. -/
def c2Table : Table :=
  (8001, { project_name := some "b", pid := some 2, creation_time := some 0,
           public_url := none }) ::
  (8000, { project_name := some "a", pid := some 1, creation_time := some 0,
           public_url := none }) ::
  (List.range' 8002 19).map (fun p =>
    (p, { project_name := some "c", pid := some 3, creation_time := some 5,
          public_url := none }))

/-- Concrete occupied table instantiating `c2_rotation_returns_first_oldest`:
all 21 ports occupied with pairwise distinct creation times. -/
def c2WitnessTable : Table :=
  (List.range' 8000 21).map (fun p =>
    (p, { project_name := some "w", pid := some 9,
          creation_time := some ((p : Int) - 7990), public_url := none }))

namespace VibeMain

/-- `PUBLIC_DOMAIN` from `vibe-coder/main.py` line 113. -/
def PUBLIC_DOMAIN : String := "d6a80fc8cd55.ngrok-free.app"

/-- The preview URL built for a slot by `preview_app` in
`vibe-coder/main.py`: the f-string rendering of
`https://PUBLIC_DOMAIN/proxy/port/`. -/
def previewUrl (port : Nat) : String :=
  "https://" ++ PUBLIC_DOMAIN ++ "/proxy/" ++ Nat.repr port ++ "/"

/-- The re-open scan at `vibe-coder/main.py` lines 194-198: walk
`ACTIVE_PREVIEWS.items()`; at the first slot whose `project_name` equals the
requested project, reset its `creation_time` to now and return that port
(the caller then renders `previewUrl port`).  Returns the port together with
the updated table, or `none` when no slot serves the project. -/
def reopenScan (p : String) (now : Int) : Table → Option (Nat × Table)
  | [] => none
  | (port, d) :: rest =>
    if d.project_name == some p then
      some (port, (port, { d with creation_time := some now }) :: rest)
    else
      (reopenScan p now rest).map (fun r => (r.1, (port, d) :: r.2))

/-- The observable result of `preview_app`'s re-open branch: the URL the
tool reports together with the updated table, or `none` when no slot serves
the project (the call then falls through to fresh allocation). -/
def preview_app_reopen (p : String) (now : Int) (t : Table) :
    Option (String × Table) :=
  (reopenScan p now t).map (fun r => (previewUrl r.1, r.2))

end VibeMain

/-- The occupied slot of the C4 witness table. -/
def c4Slot : Details :=
  { project_name := some "a", pid := some 7, creation_time := some 5,
    public_url := none }

namespace SubdomainPreview

/-- The per-project record stored in `ACTIVE_PREVIEWS` by
`src/subdomain_preview.py` (`create_preview`). -/
structure PreviewDetails where
  created_at : Int
  domain : String
  status : String
  project_path : String
deriving Repr, DecidableEq

/-- The subdomain preview table, keyed by project name, in dict insertion
order; reachable states have pairwise distinct keys (it is a dict). -/
abbrev PrevTable := List (String × PreviewDetails)

/-- `stop_preview` from `src/subdomain_preview.py` (lines 53-61):
`if project_name in ACTIVE_PREVIEWS: del ...; return True` else
`return False`.  `del` removes the (unique) binding of the key; on the
association-list embedding with distinct keys this is the filter below. -/
def stop_preview (p : String) (t : PrevTable) : Bool × PrevTable :=
  if t.any (fun e => e.1 == p) then (true, t.filter (fun e => !(e.1 == p)))
  else (false, t)

end SubdomainPreview

namespace Utils

/-- ASCII characters matched by the regex class `[\s_]` in
`sanitize_project_name` (space, tab, newline, vertical tab, form feed,
carriage return, underscore).  Python's `\s` additionally matches Unicode
spaces; those, like every other non-ASCII character, are removed by the
subsequent `[^a-z0-9-]` substitution, so the distinction cannot affect the
properties proved about the final result. -/
def isSepChar (c : Char) : Bool :=
  c.toNat == 32 || (decide (9 ≤ c.toNat) && decide (c.toNat ≤ 13)) ||
    c.toNat == 95

/-- State machine for `re.sub(r"[\s_]+", "-", name)`: each maximal run of
separator characters becomes a single hyphen (`inRun` records whether the
previous character belonged to a run). -/
def collapseSepsAux : Bool → List Char → List Char
  | _, [] => []
  | inRun, c :: cs =>
    if isSepChar c then
      if inRun then collapseSepsAux true cs
      else '-' :: collapseSepsAux true cs
    else c :: collapseSepsAux false cs

/-- `re.sub(r"[\s_]+", "-", name)`. -/
def collapseSeps (l : List Char) : List Char := collapseSepsAux false l

/-- Characters kept by `re.sub(r"[^a-z0-9-]", "", name)`: lowercase ASCII
letters, ASCII digits, and the hyphen. -/
def isAllowed (c : Char) : Bool :=
  (decide (97 ≤ c.toNat) && decide (c.toNat ≤ 122)) ||
    (decide (48 ≤ c.toNat) && decide (c.toNat ≤ 57)) || c.toNat == 45

/-- `name.strip("-")`: remove the maximal trailing run of hyphens, then the
maximal leading run (the two removals commute). -/
def stripHyphens (l : List Char) : List Char :=
  ((l.reverse.dropWhile (fun c => c == '-')).reverse).dropWhile
    (fun c => c == '-')

/-- `sanitize_project_name` from `src/utils.py` (lines 83-97): lowercase,
collapse separator runs to hyphens, delete everything outside `[a-z0-9-]`,
strip edge hyphens.  `Char.toLower` lowercases the ASCII range like Python
for every character that can survive the subsequent filter. -/
def sanitize_project_name (name : String) : String :=
  ⟨stripHyphens ((collapseSeps (name.data.map Char.toLower)).filter isAllowed)⟩

/-- The candidate name built by the f-string interpolation of the base name,
a hyphen, and the decimal rendering of the counter. -/
def numberedName (base : String) (k : Nat) : String :=
  base ++ "-" ++ Nat.repr k

/-- The while loop of `get_unique_project_name` from `src/utils.py`
(lines 46-66), with the directory-existence test
`(Path(base_dir) / project_name).exists()` embedded as membership in the
finite list `ex` of directory names existing under `base_dir`.  The Python
loop is unbounded because the filesystem is finite; here it carries fuel,
and `uniqueNameLoop_total` shows the fuel used by `get_unique_project_name`
is never exhausted. -/
def uniqueNameLoop (ex : List String) (base : String) :
    Nat → String → Nat → Option String
  | 0, _, _ => none
  | fuel+1, project_name, counter =>
    if project_name ∈ ex then
      uniqueNameLoop ex base fuel (numberedName base counter) (counter + 1)
    else some project_name

/-- `get_unique_project_name(base_name, base_dir)` from `src/utils.py`:
start from the base name and counter 2. -/
def get_unique_project_name (ex : List String) (base : String) :
    Option String :=
  uniqueNameLoop ex base (ex.length + 1) base 2

/-- Sequence of names the loop examines, in order. -/
def chainNames (base : String) : Nat → String → Nat → List String
  | 0, _, _ => []
  | fuel+1, pn, c => pn :: chainNames base fuel (numberedName base c) (c + 1)

/-- Decimal digit list of a natural number, most significant first: the
specification of what `Nat.toDigitsCore` computes. -/
def decDigits (n : Nat) : List Char :=
  if h : n < 10 then [Nat.digitChar n]
  else decDigits (n / 10) ++ [Nat.digitChar (n % 10)]
termination_by n
decreasing_by omega

end Utils

@[simp] theorem ltOptTime_none_left (ot : Option Int) : ltOptTime none ot = false := rfl

@[simp] theorem ltOptTime_some_none (t : Int) : ltOptTime (some t) none = true := rfl

@[simp] theorem ltOptTime_some_some (t u : Int) :
    ltOptTime (some t) (some u) = decide (t < u) := rfl

theorem oldestLoop_eq_firstOldest (l : Table) : ∀ (op : Option Nat) (ot : Option Int),
    oldestLoop l op ot =
      match firstOldest l with
      | none => op
      | some (q, m) => if ltOptTime (some m) ot then some q else op := by
  induction l with
  | nil => intro op ot; rfl
  | cons e rest ih =>
    intro op ot
    obtain ⟨port, d⟩ := e
    rw [oldestLoop, firstOldest]
    rcases hd : d.creation_time with _ | t
    · rw [ltOptTime_none_left]
      simp only [Bool.false_eq_true, if_false]
      rw [ih op ot]
    · rcases hr : firstOldest rest with _ | ⟨q, m⟩
      · rcases hot : ot with _ | u
        · rw [ltOptTime_some_none, if_pos rfl, ih (some port) (some t), hr]
          simp
        · rw [ltOptTime_some_some]
          by_cases htu : t < u
          · rw [decide_eq_true htu, if_pos rfl, ih (some port) (some t), hr]
            simp [htu]
          · rw [decide_eq_false htu]
            simp only [Bool.false_eq_true, if_false]
            rw [ih op (some u), hr]
            simp [htu]
      · rcases hot : ot with _ | u
        · rw [ltOptTime_some_none, if_pos rfl, ih (some port) (some t), hr]
          by_cases htm : t ≤ m
          · have h1 : ¬ m < t := not_lt.mpr htm
            simp [htm, h1]
          · have hmt : m < t := not_le.mp htm
            simp [htm, hmt]
        · rw [ltOptTime_some_some]
          by_cases htu : t < u
          · rw [decide_eq_true htu, if_pos rfl, ih (some port) (some t), hr]
            by_cases htm : t ≤ m
            · have h1 : ¬ m < t := not_lt.mpr htm
              simp [htm, h1, htu]
            · have hmt : m < t := not_le.mp htm
              have hmu : m < u := lt_trans hmt htu
              simp [htm, hmt, hmu]
          · rw [decide_eq_false htu]
            simp only [Bool.false_eq_true, if_false]
            rw [ih op (some u), hr]
            by_cases htm : t ≤ m
            · have h1 : ¬ m < u := fun h => htu (lt_of_le_of_lt htm h)
              simp [htm, h1, htu]
            · have hmt : m < t := not_le.mp htm
              simp [htm]

theorem oldestPort_eq (t : Table) :
    oldestPort t = (firstOldest t).map (fun r => r.1) := by
  rw [oldestPort, oldestLoop_eq_firstOldest]
  rcases h : firstOldest t with _ | ⟨q, m⟩ <;> simp [ltOptTime]

theorem lookup_eq_some_mem {t : Table} {p : Nat} {d : Details}
    (h : lookup t p = some d) : (p, d) ∈ t := by
  unfold lookup at h
  rcases hf : List.find? (fun e => e.1 == p) t with _ | e
  · rw [hf] at h; cases h
  · rw [hf] at h
    obtain ⟨e1, e2⟩ := e
    have hmem := List.mem_of_find?_eq_some hf
    have hpred := List.find?_some hf
    simp only [beq_iff_eq] at hpred
    have h2 : e2 = d := by
      have : some e2 = some d := h
      injection this
    subst hpred
    subst h2
    exact hmem

theorem firstOldest_none {l : Table} (h : firstOldest l = none) :
    ∀ e ∈ l, e.2.creation_time = none := by
  induction l with
  | nil => intro e he; cases he
  | cons hd rest ih =>
    obtain ⟨port, d⟩ := hd
    intro e he
    rcases hd2 : d.creation_time with _ | t <;> rw [firstOldest, hd2] at h
    · rcases List.mem_cons.mp he with rfl | hmem
      · exact hd2
      · exact ih h e hmem
    · rcases hr : firstOldest rest with _ | ⟨q, m⟩ <;> rw [hr] at h <;>
        dsimp only at h
      · cases h
      · split at h <;> cases h

theorem firstOldest_min {l : Table} {q : Nat} {m : Int}
    (h : firstOldest l = some (q, m)) :
    ∀ e ∈ l, ∀ u, e.2.creation_time = some u → m ≤ u := by
  induction l generalizing q m with
  | nil => intro e he; cases he
  | cons hd rest ih =>
    obtain ⟨port, d⟩ := hd
    intro e he u hu
    rcases hd2 : d.creation_time with _ | t <;> rw [firstOldest, hd2] at h
    · rcases List.mem_cons.mp he with rfl | hmem
      · have hu2 : d.creation_time = some u := hu
        rw [hd2] at hu2; cases hu2
      · exact ih h e hmem u hu
    · rcases hr : firstOldest rest with _ | ⟨q2, m2⟩ <;> rw [hr] at h <;>
        dsimp only at h
      · cases h
        rcases List.mem_cons.mp he with rfl | hmem
        · have hu2 : d.creation_time = some u := hu
          rw [hd2] at hu2; cases hu2; exact le_refl _
        · have := firstOldest_none hr e hmem; rw [this] at hu; cases hu
      · by_cases htm : t ≤ m2
        · rw [if_pos htm] at h
          cases h
          rcases List.mem_cons.mp he with rfl | hmem
          · have hu2 : d.creation_time = some u := hu
            rw [hd2] at hu2; cases hu2; exact le_refl _
          · exact le_trans htm (ih hr e hmem u hu)
        · rw [if_neg htm] at h
          cases h
          rcases List.mem_cons.mp he with rfl | hmem
          · have hu2 : d.creation_time = some u := hu
            rw [hd2] at hu2; cases hu2
            exact le_of_lt (not_le.mp htm)
          · exact ih hr e hmem u hu

theorem firstOldest_decomp {l : Table} {q : Nat} {m : Int}
    (h : firstOldest l = some (q, m)) :
    ∃ l1 l2 d, l = l1 ++ (q, d) :: l2 ∧ d.creation_time = some m ∧
      ∀ e ∈ l1, ∀ u, e.2.creation_time = some u → m < u := by
  induction l generalizing q m with
  | nil => cases h
  | cons hd rest ih =>
    obtain ⟨port, d⟩ := hd
    rcases hd2 : d.creation_time with _ | t <;> rw [firstOldest, hd2] at h
    · obtain ⟨l1, l2, d2, hsplit, htime, hmin⟩ := ih h
      refine ⟨(port, d) :: l1, l2, d2, by rw [hsplit]; rfl, htime, ?_⟩
      intro e he u hu
      rcases List.mem_cons.mp he with rfl | hmem
      · have hu2 : d.creation_time = some u := hu
        rw [hd2] at hu2; cases hu2
      · exact hmin e hmem u hu
    · rcases hr : firstOldest rest with _ | ⟨q2, m2⟩ <;> rw [hr] at h <;>
        dsimp only at h
      · cases h
        exact ⟨[], rest, d, rfl, hd2, by intro e he; cases he⟩
      · by_cases htm : t ≤ m2
        · rw [if_pos htm] at h
          cases h
          exact ⟨[], rest, d, rfl, hd2, by intro e he; cases he⟩
        · rw [if_neg htm] at h
          cases h
          obtain ⟨l1, l2, d2, hsplit, htime, hmin⟩ := ih hr
          refine ⟨(port, d) :: l1, l2, d2, by rw [hsplit]; rfl, htime, ?_⟩
          intro e he u hu
          rcases List.mem_cons.mp he with rfl | hmem
          · have hu2 : d.creation_time = some u := hu
            rw [hd2] at hu2; cases hu2
            exact not_le.mp htm
          · exact hmin e hmem u hu

theorem occupiedAt_iff {t : Table} {p : Nat} :
    occupiedAt t p = true ↔ ∃ d, lookup t p = some d ∧ d.project_name ≠ none := by
  unfold occupiedAt
  rcases h : lookup t p with _ | d
  · simp
  · simp [Option.isSome_iff_ne_none]

namespace SrcPreview

theorem freeScan_eq_none {ps : List Nat} {t : Table}
    (h : ∀ p ∈ ps, ∃ d, lookup t p = some d ∧ d.project_name ≠ none) :
    freeScan ps t = none := by
  induction ps with
  | nil => rfl
  | cons p ps ih =>
    obtain ⟨d, hd, hocc⟩ := h p (List.mem_cons_self p ps)
    rw [freeScan, hd]
    simp only [if_neg hocc]
    exact ih (fun q hq => h q (List.mem_cons_of_mem p hq))

end SrcPreview

namespace VibeApp

theorem findFreeTracked_eq_none {t : Table} (h : findFreeTracked t = none) :
    ∀ e ∈ t, e.2.project_name ≠ none := by
  induction t with
  | nil => intro e he; cases he
  | cons hd rest ih =>
    obtain ⟨p, d⟩ := hd
    intro e he
    rw [findFreeTracked] at h
    by_cases hfree : d.project_name = none
    · rw [if_pos hfree] at h; cases h
    · rw [if_neg hfree] at h
      rcases List.mem_cons.mp he with rfl | hmem
      · exact hfree
      · exact ih h e hmem

end VibeApp

theorem map_ite_key (t : Table) (c : Nat → Prop) [DecidablePred c]
    (g : Details → Details) :
    t.map (fun e => if c e.1 then (e.1, g e.2) else e) =
      t.map (fun e => (e.1, if c e.1 then g e.2 else e.2)) := by
  apply List.map_congr_left
  intro e he
  by_cases h : c e.1 <;> simp [h]

theorem lookup_mapValues (f : Nat × Details → Details) (t : Table) (q : Nat) :
    lookup (t.map (fun e => (e.1, f e))) q =
      (t.find? (fun e => e.1 == q)).map (fun e => f e) := by
  induction t with
  | nil => rfl
  | cons e rest ih =>
    obtain ⟨k, d⟩ := e
    by_cases h : k = q
    · subst h
      unfold lookup
      rw [List.map_cons, List.find?_cons_of_pos _ (by simp),
        List.find?_cons_of_pos _ (by simp)]
      rfl
    · unfold lookup at ih ⊢
      rw [List.map_cons, List.find?_cons_of_neg _ (by simpa using h),
        List.find?_cons_of_neg _ (by simpa using h)]
      exact ih

theorem lookup_ite_map (t : Table) (c : Nat → Prop) [DecidablePred c]
    (g : Details → Details) (q : Nat) :
    lookup (t.map (fun e => if c e.1 then (e.1, g e.2) else e)) q =
      (lookup t q).map (fun d => if c q then g d else d) := by
  rw [map_ite_key]
  rw [lookup_mapValues (fun e => if c e.1 then g e.2 else e.2) t q]
  unfold lookup
  rcases hf : t.find? (fun e => e.1 == q) with _ | e
  · rw [hf]; rfl
  · rw [hf]
    have he := List.find?_some hf
    simp only [beq_iff_eq] at he
    simp [he]

namespace SrcPreview

theorem clearSlot_clearSlot (d : Details) :
    clearSlot (clearSlot d) = clearSlot d := rfl

theorem reaperLoop_fst (kill : Nat → KillResult) (now maxL : Int) :
    ∀ (snap : List (Nat × Details)) (live : Table),
      (reaperLoop kill now maxL snap live).1 =
        live.map (fun e =>
          if e.1 ∈ expiredPorts now maxL snap then (e.1, clearSlot e.2) else e) := by
  intro snap
  induction snap with
  | nil =>
    intro live
    simp [reaperLoop, expiredPorts]
  | cons hd rest ih =>
    obtain ⟨port, d⟩ := hd
    intro live
    rw [reaperLoop]
    by_cases hex : expired now maxL d
    · rw [if_pos hex]
      have hports : expiredPorts now maxL ((port, d) :: rest) =
          port :: expiredPorts now maxL rest := by
        simp [expiredPorts, List.filter_cons, hex]
      rw [hports]
      dsimp only
      rw [ih (setCleared live port)]
      unfold setCleared
      rw [List.map_map]
      apply List.map_congr_left
      intro e he
      by_cases hp : e.1 = port
      · subst hp
        by_cases hmem : e.1 ∈ expiredPorts now maxL rest <;>
          simp [Function.comp, hmem, clearSlot_clearSlot]
      · by_cases hmem : e.1 ∈ expiredPorts now maxL rest <;>
          simp [Function.comp, hp, hmem]
    · rw [if_neg hex]
      have hports : expiredPorts now maxL ((port, d) :: rest) =
          expiredPorts now maxL rest := by
        simp [expiredPorts, List.filter_cons, hex]
      rw [hports]
      exact ih live

theorem mem_expiredPorts {now maxL : Int} {snap : List (Nat × Details)}
    {port : Nat} :
    port ∈ expiredPorts now maxL snap ↔
      ∃ d, (port, d) ∈ snap ∧ expired now maxL d = true := by
  unfold expiredPorts
  constructor
  · intro h
    obtain ⟨e, he, heq⟩ := List.mem_map.mp h
    have := List.mem_filter.mp he
    exact ⟨e.2, by rw [← heq]; exact this.1, this.2⟩
  · rintro ⟨d, hmem, hex⟩
    exact List.mem_map.mpr ⟨(port, d), List.mem_filter.mpr ⟨hmem, hex⟩, rfl⟩

end SrcPreview

theorem lookup_unique {t : Table} {port : Nat} {d d2 : Details}
    (hk : (t.map (fun e => e.1)).Nodup)
    (hl : lookup t port = some d) (hmem : (port, d2) ∈ t) : d2 = d := by
  induction t with
  | nil => cases hmem
  | cons e rest ih =>
    obtain ⟨k, v⟩ := e
    simp only [List.map_cons, List.nodup_cons] at hk
    by_cases h : k = port
    · subst h
      have hv : v = d := by
        unfold lookup at hl
        rw [List.find?_cons_of_pos _ (by simp)] at hl
        simpa using hl
      rcases List.mem_cons.mp hmem with heq | hmem2
      · injection heq with h1 h2; rw [h2, hv]
      · exact absurd (List.mem_map.mpr ⟨(k, d2), hmem2, rfl⟩) hk.1
    · rcases List.mem_cons.mp hmem with heq | hmem2
      · injection heq with h1 h2; exact absurd h1.symm h
      · refine ih hk.2 ?_ hmem2
        unfold lookup at hl ⊢
        rw [List.find?_cons_of_neg _ (by simpa using h)] at hl
        exact hl

theorem lookup_reaperResult (kill : Nat → SrcPreview.KillResult)
    (now maxL : Int) (t : Table) (q : Nat) :
    lookup (SrcPreview.reaperCycle kill now maxL t).1 q =
      (lookup t q).map (fun d =>
        if q ∈ SrcPreview.expiredPorts now maxL t then SrcPreview.clearSlot d
        else d) := by
  rw [SrcPreview.reaperCycle, SrcPreview.reaperLoop_fst]
  exact lookup_ite_map t (fun x => x ∈ SrcPreview.expiredPorts now maxL t)
    SrcPreview.clearSlot q

/-- Claim C1, counterexample: the tunnel-discovery write of
`_start_one_cloudflared_tunnel` (src/preview.py lines 99-104) stores the
cloudflared process id in the slot's `pid` field while leaving
`project_name` and `creation_time` null, so the slot it produces is in a
partial state — `pid` non-null, occupant and createdAt null — refuting the
claimed all-or-nothing invariant. -/
theorem c1_counterexample :
    lookup (SrcPreview.tunnelDiscoveryWrite [] 8000 123
        "https://x.trycloudflare.com") 8000 = some c1Slot ∧
    slotAtomic c1Slot = false := by
  decide

/-- Claim C1, amended: in every table whose slots satisfy the weakened
invariant — occupant and createdAt jointly null or jointly non-null, and an
occupied slot always has a non-null pid — each of the three writing
operations (tunnel discovery, the open/preview bind, and a reaper cycle)
preserves that invariant; the pid of a *free* slot, however, may legitimately
be non-null, because tunnel discovery stores the tunnel process's pid there.
-/
theorem c1_occupancy_alignment (t : Table)
    (h : ∀ e ∈ t, occAligned e.2 = true) :
    (∀ port tunnelPid url,
      ∀ e ∈ SrcPreview.tunnelDiscoveryWrite t port tunnelPid url,
        occAligned e.2 = true) ∧
    (∀ port pid p now, ∀ e ∈ VibeApp.bindSlot t port pid p now,
        occAligned e.2 = true) ∧
    (∀ (kill : Nat → SrcPreview.KillResult) (now maxL : Int),
      ∀ e ∈ (SrcPreview.reaperCycle kill now maxL t).1,
        occAligned e.2 = true) := by
  refine ⟨?_, ?_, ?_⟩
  · intro port tunnelPid url e he
    unfold SrcPreview.tunnelDiscoveryWrite dictSet at he
    split at he
    · obtain ⟨a, ha, hae⟩ := List.mem_map.mp he
      by_cases hp : a.1 = port
      · rw [if_pos hp] at hae
        rw [← hae]
        rfl
      · rw [if_neg hp] at hae
        rw [← hae]
        exact h a ha
    · rcases List.mem_append.mp he with hmem | hmem
      · exact h e hmem
      · rcases List.mem_singleton.mp hmem with rfl
        rfl
  · intro port pid p now e he
    unfold VibeApp.bindSlot at he
    obtain ⟨a, ha, hae⟩ := List.mem_map.mp he
    by_cases hp : a.1 = port
    · rw [if_pos hp] at hae
      rw [← hae]
      rfl
    · rw [if_neg hp] at hae
      rw [← hae]
      exact h a ha
  · intro kill now maxL e he
    rw [SrcPreview.reaperCycle, SrcPreview.reaperLoop_fst] at he
    obtain ⟨a, ha, hae⟩ := List.mem_map.mp he
    by_cases hp : a.1 ∈ SrcPreview.expiredPorts now maxL t
    · rw [if_pos hp] at hae
      rw [← hae]
      rfl
    · rw [if_neg hp] at hae
      rw [← hae]
      exact h a ha

/-- Witness for claim C1's amended theorem at a concrete table. -/
theorem c1_occupancy_alignment_witness :
    (∀ port tunnelPid url,
      ∀ e ∈ SrcPreview.tunnelDiscoveryWrite c1WitnessTable port tunnelPid url,
        occAligned e.2 = true) ∧
    (∀ port pid p now, ∀ e ∈ VibeApp.bindSlot c1WitnessTable port pid p now,
        occAligned e.2 = true) ∧
    (∀ (kill : Nat → SrcPreview.KillResult) (now maxL : Int),
      ∀ e ∈ (SrcPreview.reaperCycle kill now maxL c1WitnessTable).1,
        occAligned e.2 = true) :=
  c1_occupancy_alignment c1WitnessTable (by decide)

/-- Claim C3: for a slot occupied at time `t0` (non-empty occupant, as the
reaper's truthiness test requires) in a table with distinct port keys, one
reaper cycle with `max_lifetime_seconds = 240` clears the slot's occupancy
fields exactly when `now - t0 > 240`; in particular the slot is unchanged
after a cycle run at `t0 + 239` and is free (occupant, pid and createdAt
cleared) after a cycle run at `t0 + 241`, whatever `os.kill` does. -/
theorem c3_ttl_reaping (kill : Nat → SrcPreview.KillResult) (t : Table)
    (port : Nat) (d : Details) (p : String) (t0 : Int)
    (hk : (t.map (fun e => e.1)).Nodup)
    (hl : lookup t port = some d)
    (hp : d.project_name = some p) (hpe : p ≠ "")
    (hc : d.creation_time = some t0) :
    (∀ now : Int, lookup (SrcPreview.reaperCycle kill now 240 t).1 port =
      some (if now - t0 > 240 then SrcPreview.clearSlot d else d)) ∧
    lookup (SrcPreview.reaperCycle kill (t0 + 239) 240 t).1 port = some d ∧
    lookup (SrcPreview.reaperCycle kill (t0 + 241) 240 t).1 port =
      some (SrcPreview.clearSlot d) := by
  have hex : ∀ now : Int, SrcPreview.expired now 240 d = decide (now - t0 > 240) := by
    intro now
    unfold SrcPreview.expired
    rw [hp, hc]
    have : truthyStr (some p) = true := by
      unfold truthyStr
      simp [hpe]
    rw [this]
    simp
  have hmain : ∀ now : Int,
      lookup (SrcPreview.reaperCycle kill now 240 t).1 port =
        some (if now - t0 > 240 then SrcPreview.clearSlot d else d) := by
    intro now
    rw [lookup_reaperResult, hl]
    have hiff : port ∈ SrcPreview.expiredPorts now 240 t ↔ now - t0 > 240 := by
      constructor
      · intro hmem
        obtain ⟨d2, hmem2, hex2⟩ := SrcPreview.mem_expiredPorts.mp hmem
        rw [lookup_unique hk hl hmem2] at hex2
        rw [hex now] at hex2
        exact of_decide_eq_true hex2
      · intro hgt
        refine SrcPreview.mem_expiredPorts.mpr ⟨d, lookup_eq_some_mem hl, ?_⟩
        rw [hex now]
        exact decide_eq_true hgt
    by_cases hgt : now - t0 > 240
    · simp only [Option.map_some']
      rw [if_pos (hiff.mpr hgt), if_pos hgt]
    · simp only [Option.map_some']
      rw [if_neg (fun hmem => hgt (hiff.mp hmem)), if_neg hgt]
  refine ⟨hmain, ?_, ?_⟩
  · rw [hmain (t0 + 239), if_neg (by omega)]
  · rw [hmain (t0 + 241), if_pos (by omega)]

/-- Witness for claim C3 at a concrete table: the slot occupied at time 100
survives the cycle run at time 339 and is cleared by the cycle run at
time 341. -/
theorem c3_ttl_reaping_witness :
    lookup (SrcPreview.reaperCycle (fun _ => SrcPreview.KillResult.ok)
        (100 + 239) 240 c3Table).1 8000 = some c3Slot ∧
    lookup (SrcPreview.reaperCycle (fun _ => SrcPreview.KillResult.ok)
        (100 + 241) 240 c3Table).1 8000 = some (SrcPreview.clearSlot c3Slot) :=
  (c3_ttl_reaping (fun _ => SrcPreview.KillResult.ok) c3Table 8000 c3Slot
    "a" 100 (by decide) (by decide) rfl (by decide) rfl).2

/-- Claim C7: neither a reaper cycle (eviction and release) nor the
open/preview bind that hands a slot to a different project changes any
slot's `public_url`; only the occupancy fields cycle. -/
theorem c7_public_url_frame (kill : Nat → SrcPreview.KillResult)
    (now maxL : Int) (t : Table) (port q pid : Nat) (p : String) (now2 : Int) :
    (lookup (SrcPreview.reaperCycle kill now maxL t).1 q).map
        (fun d => d.public_url) =
      (lookup t q).map (fun d => d.public_url) ∧
    (lookup (VibeApp.bindSlot t port pid p now2) q).map
        (fun d => d.public_url) =
      (lookup t q).map (fun d => d.public_url) := by
  constructor
  · rw [lookup_reaperResult]
    rcases lookup t q with _ | d
    · rfl
    · dsimp only [Option.map_some']
      split <;> rfl
  · have hb : lookup (VibeApp.bindSlot t port pid p now2) q =
        (lookup t q).map (fun d =>
          if q = port then
            { d with
                pid := some pid,
                project_name := some p,
                creation_time := some now2 }
          else d) :=
      lookup_ite_map t (fun x => x = port)
        (fun d =>
          { d with
              pid := some pid,
              project_name := some p,
              creation_time := some now2 }) q
    rw [hb]
    rcases lookup t q with _ | d
    · rfl
    · dsimp only [Option.map_some']
      split <;> rfl

/-- Claim C8: a reaper cycle's resulting table does not depend on the
outcomes of the `os.kill` calls (every failure, including the process being
gone, is caught and suppressed), and every slot that passes the expiry test
is released — its occupancy fields cleared — regardless of how its own or
any earlier slot's stop attempt fared. -/
theorem c8_reaper_fault_isolation (k1 k2 : Nat → SrcPreview.KillResult)
    (now maxL : Int) (t : Table) :
    (SrcPreview.reaperCycle k1 now maxL t).1 =
      (SrcPreview.reaperCycle k2 now maxL t).1 ∧
    ∀ port d, lookup t port = some d → SrcPreview.expired now maxL d = true →
      lookup (SrcPreview.reaperCycle k1 now maxL t).1 port =
        some (SrcPreview.clearSlot d) := by
  constructor
  · rw [SrcPreview.reaperCycle, SrcPreview.reaperCycle,
      SrcPreview.reaperLoop_fst, SrcPreview.reaperLoop_fst]
  · intro port d hl hex
    rw [lookup_reaperResult, hl]
    have hmem : port ∈ SrcPreview.expiredPorts now maxL t :=
      SrcPreview.mem_expiredPorts.mpr ⟨d, lookup_eq_some_mem hl, hex⟩
    rw [Option.map_some', if_pos hmem]

/-- Witness for claim C8 at a concrete table: with every kill reporting
`ProcessLookupError` the cycle produces the same table as with every kill
succeeding, and both expired slots come out released. -/
theorem c8_reaper_fault_isolation_witness :
    (SrcPreview.reaperCycle (fun _ => SrcPreview.KillResult.processLookupError)
        400 240 c8Table).1 =
      (SrcPreview.reaperCycle (fun _ => SrcPreview.KillResult.ok)
        400 240 c8Table).1 ∧
    lookup (SrcPreview.reaperCycle
        (fun _ => SrcPreview.KillResult.processLookupError)
        400 240 c8Table).1 8000 = some (SrcPreview.clearSlot c3Slot) :=
  ⟨(c8_reaper_fault_isolation
      (fun _ => SrcPreview.KillResult.processLookupError)
      (fun _ => SrcPreview.KillResult.ok) 400 240 c8Table).1,
   (c8_reaper_fault_isolation
      (fun _ => SrcPreview.KillResult.processLookupError)
      (fun _ => SrcPreview.KillResult.ok) 400 240 c8Table).2
     8000 c3Slot (by decide) (by decide)⟩

/-- Claim C2, counterexample: in a pool state where all slots are occupied
and ports 8000 and 8001 tie for the minimum `createdAt`, `find_available_port`
of `src/preview.py` returns port 8001 — the slot inserted *first* into the
dict — and not the lowest tied address 8000, so the tie-break is dict
insertion order, not lowest address. -/
theorem c2_counterexample :
    (∀ p ∈ SrcPreview.PREVIEW_PORT_RANGE, occupiedAt c2Table p = true) ∧
    (c2Table.filterMap (fun e => e.2.creation_time)).min? = some 0 ∧
    (lookup c2Table 8000).map (fun d => d.creation_time) = some (some 0) ∧
    (lookup c2Table 8001).map (fun d => d.creation_time) = some (some 0) ∧
    8000 < 8001 ∧
    (SrcPreview.find_available_port c2Table).1 = some 8001 := by
  decide

/-- Claim C2, amended: under full-pool pressure (every configured port is
tracked and occupied, and occupied slots carry a creation time),
`find_available_port` of `src/preview.py` leaves the table unchanged and
returns the slot with the minimum `createdAt` among all slots; when several
slots share that minimum it returns the one that occurs *earliest in dict
insertion order* (which is the lowest port number only if slots were
inserted in ascending port order). -/
theorem c2_rotation_returns_first_oldest (t : Table)
    (hocc : ∀ p ∈ SrcPreview.PREVIEW_PORT_RANGE, occupiedAt t p = true)
    (hwf : ∀ e ∈ t, e.2.project_name ≠ none → e.2.creation_time ≠ none) :
    ∃ q m d l1 l2,
      SrcPreview.find_available_port t = (some q, t) ∧
      t = l1 ++ (q, d) :: l2 ∧
      d.creation_time = some m ∧
      (∀ e ∈ t, ∀ u, e.2.creation_time = some u → m ≤ u) ∧
      (∀ e ∈ l1, ∀ u, e.2.creation_time = some u → m < u) := by
  have hocc2 : ∀ p ∈ SrcPreview.PREVIEW_PORT_RANGE,
      ∃ d, lookup t p = some d ∧ d.project_name ≠ none :=
    fun p hp => occupiedAt_iff.mp (hocc p hp)
  have hscan := SrcPreview.freeScan_eq_none hocc2
  have h8000 : (8000 : Nat) ∈ SrcPreview.PREVIEW_PORT_RANGE := by decide
  obtain ⟨d0, hl0, hn0⟩ := hocc2 8000 h8000
  have hmem0 : ((8000 : Nat), d0) ∈ t := lookup_eq_some_mem hl0
  have ht0 : d0.creation_time ≠ none := hwf (8000, d0) hmem0 hn0
  have hfo : firstOldest t ≠ none := by
    intro hno
    exact ht0 (firstOldest_none hno (8000, d0) hmem0)
  rcases hfo2 : firstOldest t with _ | ⟨q, m⟩
  · exact absurd hfo2 hfo
  obtain ⟨l1, l2, d, hsplit, htime, hleft⟩ := firstOldest_decomp hfo2
  refine ⟨q, m, d, l1, l2, ?_, hsplit, htime, firstOldest_min hfo2, hleft⟩
  rw [SrcPreview.find_available_port, hscan, oldestPort_eq, hfo2]
  rfl

/-- Witness for claim C2's amended theorem at a concrete full table. -/
theorem c2_rotation_returns_first_oldest_witness :
    ∃ q m d l1 l2,
      SrcPreview.find_available_port c2WitnessTable = (some q, c2WitnessTable) ∧
      c2WitnessTable = l1 ++ (q, d) :: l2 ∧
      d.creation_time = some m ∧
      (∀ e ∈ c2WitnessTable, ∀ u, e.2.creation_time = some u → m ≤ u) ∧
      (∀ e ∈ l1, ∀ u, e.2.creation_time = some u → m < u) :=
  c2_rotation_returns_first_oldest c2WitnessTable (by decide) (by decide)

/-- Claim C5, counterexample: `find_available_port` of `vibe-coder/app.py`
returns `None` on the empty tracked table (the reachable state in which
ngrok tunnel discovery found no tunnels) even though the configured address
space `range(9000, 9021)` is not empty, so "returns NONE if and only if the
configured address space is empty" is false. -/
theorem c5_counterexample :
    VibeApp.find_available_port [] = none ∧ VibeApp.PREVIEW_PORT_RANGE ≠ [] := by
  decide

/-- Claim C5, amended: `find_available_port` of `vibe-coder/app.py` returns
`None` exactly when the *tracked tunnel table* is empty (its allocation
space is the set of discovered tunnels, not the configured port range) —
for any non-empty table whose occupied slots carry creation times it returns
some slot; and the `vibe-coder/main.py` variant returns `None` exactly when
every configured port is already tracked or reported in use by the OS,
performing no rotation. -/
theorem c5_none_iff_characterisation :
    (∀ t : Table, (∀ e ∈ t, e.2.project_name ≠ none → e.2.creation_time ≠ none) →
      (VibeApp.find_available_port t = none ↔ t = [])) ∧
    (∀ (inUse : Nat → Bool) (t : Table),
      VibeMain.find_available_port inUse t = none ↔
        ∀ p ∈ VibeMain.PREVIEW_PORT_RANGE,
          ((lookup t p).isNone && !(inUse p)) = false) := by
  constructor
  · intro t hwf
    constructor
    · intro h
      cases t with
      | nil => rfl
      | cons hd rest =>
        obtain ⟨p, d⟩ := hd
        exfalso
        rw [VibeApp.find_available_port] at h
        rcases hff : VibeApp.findFreeTracked ((p, d) :: rest) with _ | p2
        · rw [hff] at h
          dsimp only at h
          have hn : d.project_name ≠ none :=
            VibeApp.findFreeTracked_eq_none hff (p, d) (List.mem_cons_self _ _)
          have ht : d.creation_time ≠ none :=
            hwf (p, d) (List.mem_cons_self _ _) hn
          rw [oldestPort_eq] at h
          rcases hfo : firstOldest ((p, d) :: rest) with _ | r
          · exact ht (firstOldest_none hfo (p, d) (List.mem_cons_self _ _))
          · rw [hfo] at h; cases h
        · rw [hff] at h; cases h
    · intro h; subst h; rfl
  · intro inUse t
    rw [VibeMain.find_available_port]
    constructor
    · intro h p hp
      have := List.find?_eq_none.mp h p hp
      exact Bool.not_eq_true _ ▸ (by simpa using this)
    · intro h
      exact List.find?_eq_none.mpr (fun p hp => by rw [h p hp]; simp)

/-- Claim C4: when some slot already serves project `p`, the re-open path of
`preview_app` returns that same slot (no new slot is allocated: the key
sequence of the table is unchanged and every other slot is untouched),
renders the slot's URL — which is a function of the unchanged port, hence
the existing URL — and resets the slot's `creation_time` to now, leaving its
occupant and pid as they were. -/
theorem c4_reopen_refresh (t : Table) (p : String) (now : Int)
    (hk : (t.map (fun e => e.1)).Nodup)
    (hsome : ∃ port d, lookup t port = some d ∧ d.project_name = some p) :
    ∃ port d t2,
      VibeMain.preview_app_reopen p now t =
        some (VibeMain.previewUrl port, t2) ∧
      lookup t port = some d ∧
      d.project_name = some p ∧
      lookup t2 port = some { d with creation_time := some now } ∧
      t2.map (fun e => e.1) = t.map (fun e => e.1) ∧
      ∀ q, q ≠ port → lookup t2 q = lookup t q := by
  suffices h : ∃ port d t2,
      VibeMain.reopenScan p now t = some (port, t2) ∧
      lookup t port = some d ∧
      d.project_name = some p ∧
      lookup t2 port = some { d with creation_time := some now } ∧
      t2.map (fun e => e.1) = t.map (fun e => e.1) ∧
      ∀ q, q ≠ port → lookup t2 q = lookup t q by
    obtain ⟨port, d, t2, hscan, hrest⟩ := h
    refine ⟨port, d, t2, ?_, hrest⟩
    rw [VibeMain.preview_app_reopen, hscan]
    rfl
  induction t with
  | nil =>
    obtain ⟨port, d, hl, _⟩ := hsome
    cases hl
  | cons e rest ih =>
    obtain ⟨k, d0⟩ := e
    by_cases hhead : d0.project_name = some p
    · refine ⟨k, d0, (k, { d0 with creation_time := some now }) :: rest, ?_, ?_, hhead, ?_, ?_, ?_⟩
      · rw [VibeMain.reopenScan, if_pos (by simp [hhead])]
      · unfold lookup
        rw [List.find?_cons_of_pos _ (by simp)]
        rfl
      · unfold lookup
        rw [List.find?_cons_of_pos _ (by simp)]
        rfl
      · rfl
      · intro q hq
        unfold lookup
        rw [List.find?_cons_of_neg _ (by simpa using fun h => hq h.symm),
          List.find?_cons_of_neg _ (by simpa using fun h => hq h.symm)]
    · simp only [List.map_cons, List.nodup_cons] at hk
      have hsome2 : ∃ port d, lookup rest port = some d ∧ d.project_name = some p := by
        obtain ⟨port, d, hl, hpn⟩ := hsome
        by_cases hpk : k = port
        · subst hpk
          unfold lookup at hl
          rw [List.find?_cons_of_pos _ (by simp)] at hl
          have : d0 = d := by simpa using hl
          rw [this] at hhead
          exact absurd hpn hhead
        · refine ⟨port, d, ?_, hpn⟩
          unfold lookup at hl
          rw [List.find?_cons_of_neg _ (by simpa using hpk)] at hl
          exact hl
      obtain ⟨port, d, t2r, hscan, hl, hpn, hl2, hkeys, hframe⟩ := ih hk.2 hsome2
      have hkport : k ≠ port := by
        intro hkp
        subst hkp
        exact hk.1 (List.mem_map.mpr ⟨(k, d), lookup_eq_some_mem hl, rfl⟩)
      refine ⟨port, d, (k, d0) :: t2r, ?_, ?_, hpn, ?_, ?_, ?_⟩
      · rw [VibeMain.reopenScan, if_neg (by simp [hhead]), hscan]
        rfl
      · unfold lookup
        rw [List.find?_cons_of_neg _ (by simpa using hkport)]
        exact hl
      · unfold lookup
        rw [List.find?_cons_of_neg _ (by simpa using hkport)]
        exact hl2
      · simp only [List.map_cons, hkeys]
      · intro q hq
        by_cases hqk : q = k
        · subst hqk
          unfold lookup
          rw [List.find?_cons_of_pos _ (by simp), List.find?_cons_of_pos _ (by simp)]
        · unfold lookup
          rw [List.find?_cons_of_neg _ (by simpa using fun h => hqk h.symm),
            List.find?_cons_of_neg _ (by simpa using fun h => hqk h.symm)]
          exact hframe q hq

/-- Witness for claim C4 at a concrete one-slot table. -/
theorem c4_reopen_refresh_witness :
    ∃ port d t2,
      VibeMain.preview_app_reopen "a" 50 [(9000, c4Slot)] =
        some (VibeMain.previewUrl port, t2) ∧
      lookup [(9000, c4Slot)] port = some d ∧
      d.project_name = some "a" ∧
      lookup t2 port = some { d with creation_time := some 50 } ∧
      t2.map (fun e => e.1) = ([(9000, c4Slot)] : Table).map (fun e => e.1) ∧
      ∀ q, q ≠ port → lookup t2 q = lookup ([(9000, c4Slot)] : Table) q :=
  c4_reopen_refresh [(9000, c4Slot)] "a" 50 (by decide)
    ⟨9000, c4Slot, rfl, rfl⟩

/-- Claim C6: `stop_preview p` returns `true` exactly when some tracked
preview entry has occupant `p`, and releases it — `p` is absent from the
table immediately afterwards — so a second call with no intervening open
returns `false`. -/
theorem c6_idempotent_close (t : SubdomainPreview.PrevTable) (p : String) :
    ((SubdomainPreview.stop_preview p t).1 = true ↔
      p ∈ t.map (fun e => e.1)) ∧
    p ∉ (SubdomainPreview.stop_preview p t).2.map (fun e => e.1) ∧
    (SubdomainPreview.stop_preview p
      (SubdomainPreview.stop_preview p t).2).1 = false := by
  have hany : (t.any (fun e => e.1 == p) = true) ↔ p ∈ t.map (fun e => e.1) := by
    rw [List.any_eq_true]
    constructor
    · rintro ⟨e, he, hbe⟩
      exact List.mem_map.mpr ⟨e, he, by simpa using hbe⟩
    · intro hm
      obtain ⟨e, he, heq⟩ := List.mem_map.mp hm
      exact ⟨e, he, by simpa using heq⟩
  have hnot : ∀ t2 : SubdomainPreview.PrevTable,
      p ∉ t2.map (fun e => e.1) →
        (SubdomainPreview.stop_preview p t2).1 = false := by
    intro t2 hm
    unfold SubdomainPreview.stop_preview
    rw [if_neg ?_]
    intro hc
    obtain ⟨e, he, hbe⟩ := List.any_eq_true.mp hc
    exact hm (List.mem_map.mpr ⟨e, he, by simpa using hbe⟩)
  unfold SubdomainPreview.stop_preview
  by_cases h : t.any (fun e => e.1 == p) = true
  · rw [if_pos h]
    have hgone : p ∉ (t.filter (fun e => !(e.1 == p))).map (fun e => e.1) := by
      intro hm
      obtain ⟨e, he, heq⟩ := List.mem_map.mp hm
      have := (List.mem_filter.mp he).2
      rw [heq] at this
      simp at this
    refine ⟨by simp [hany.mp h], hgone, ?_⟩
    exact hnot _ hgone
  · rw [if_neg h]
    have hm : p ∉ t.map (fun e => e.1) := fun hm => h (hany.mpr hm)
    refine ⟨?_, hm, hnot t hm⟩
    constructor
    · intro hfalse
      exact (Bool.false_ne_true hfalse).elim
    · intro hmm
      exact absurd (hany.mpr hmm) h

namespace Utils

theorem head?_dropWhile_ne (p : Char → Bool) {l : List Char} {c : Char}
    (h : (l.dropWhile p).head? = some c) : p c = false := by
  have h2 := List.head?_dropWhile_not p l
  rw [h] at h2
  exact h2

theorem dropWhile_eq_self_of_head {p : Char → Bool} {l : List Char}
    (h : ∀ c, l.head? = some c → p c = false) : l.dropWhile p = l := by
  cases l with
  | nil => rfl
  | cons a as =>
    have := h a rfl
    exact List.dropWhile_cons_of_neg (by rw [this]; exact Bool.false_ne_true)

theorem getLast?_of_dropWhile {p : Char → Bool} {l : List Char} {c : Char}
    (h : (l.dropWhile p).getLast? = some c) : l.getLast? = some c := by
  obtain ⟨s, hs⟩ := List.dropWhile_suffix (l := l) p
  rw [← hs, List.getLast?_append, h]
  rfl

theorem mem_stripHyphens {l : List Char} {c : Char}
    (h : c ∈ stripHyphens l) : c ∈ l := by
  unfold stripHyphens at h
  have h2 := List.dropWhile_subset _ h
  rw [List.mem_reverse] at h2
  have h3 := List.dropWhile_subset _ h2
  rw [List.mem_reverse] at h3
  exact h3

theorem stripHyphens_head {l : List Char} {c : Char}
    (h : (stripHyphens l).head? = some c) : (c == '-') = false :=
  head?_dropWhile_ne (fun x => x == '-') h

theorem stripHyphens_getLast {l : List Char} {c : Char}
    (h : (stripHyphens l).getLast? = some c) : (c == '-') = false := by
  unfold stripHyphens at h
  have h2 := getLast?_of_dropWhile h
  rw [List.getLast?_reverse] at h2
  exact head?_dropWhile_ne (fun x => x == '-') h2

theorem stripHyphens_eq_self {l : List Char}
    (hh : ∀ c, l.head? = some c → (c == '-') = false)
    (hl : ∀ c, l.getLast? = some c → (c == '-') = false) :
    stripHyphens l = l := by
  unfold stripHyphens
  have h1 : l.reverse.dropWhile (fun c => c == '-') = l.reverse := by
    apply dropWhile_eq_self_of_head
    intro c hc
    rw [List.head?_reverse] at hc
    exact hl c hc
  rw [h1, List.reverse_reverse]
  exact dropWhile_eq_self_of_head hh

theorem toLower_of_isAllowed {c : Char} (h : isAllowed c = true) :
    c.toLower = c := by
  simp only [isAllowed, Bool.or_eq_true, Bool.and_eq_true, decide_eq_true_eq,
    beq_iff_eq] at h
  simp only [Char.toLower]
  rw [if_neg (by omega)]

theorem not_isSepChar_of_isAllowed {c : Char} (h : isAllowed c = true) :
    isSepChar c = false := by
  simp only [isAllowed, Bool.or_eq_true, Bool.and_eq_true, decide_eq_true_eq,
    beq_iff_eq] at h
  simp only [isSepChar]
  simp only [Bool.or_eq_false_iff, Bool.and_eq_false_iff, beq_eq_false_iff_ne,
    decide_eq_false_iff_not]
  omega

theorem collapseSepsAux_eq_self {l : List Char}
    (h : ∀ c ∈ l, isSepChar c = false) : collapseSepsAux false l = l := by
  induction l with
  | nil => rfl
  | cons c cs ih =>
    have hc := h c (List.mem_cons_self c cs)
    rw [collapseSepsAux, if_neg (by rw [hc]; exact Bool.false_ne_true)]
    rw [ih (fun a ha => h a (List.mem_cons_of_mem c ha))]

theorem sanitize_fixed (r : String)
    (hall : ∀ c ∈ r.data, isAllowed c = true)
    (hh : ∀ c, r.data.head? = some c → (c == '-') = false)
    (hl : ∀ c, r.data.getLast? = some c → (c == '-') = false) :
    sanitize_project_name r = r := by
  obtain ⟨l⟩ := r
  unfold sanitize_project_name
  have h1 : l.map Char.toLower = l := by
    have : ∀ c ∈ l, Char.toLower c = id c := fun c hc =>
      toLower_of_isAllowed (hall c hc)
    rw [List.map_congr_left this, List.map_id]
  rw [show (String.mk l).data = l from rfl] at hall hh hl
  rw [h1]
  unfold collapseSeps
  rw [collapseSepsAux_eq_self (fun c hc => not_isSepChar_of_isAllowed (hall c hc))]
  rw [List.filter_eq_self.mpr hall]
  rw [stripHyphens_eq_self hh hl]

theorem uniqueNameLoop_succ (ex : List String) (base : String) (f : Nat)
    (pn : String) (c : Nat) :
    uniqueNameLoop ex base (f + 1) pn c =
      if pn ∈ ex then uniqueNameLoop ex base f (numberedName base c) (c + 1)
      else some pn := rfl

theorem chainNames_succ (base : String) (f : Nat) (pn : String) (c : Nat) :
    chainNames base (f + 1) pn c =
      pn :: chainNames base f (numberedName base c) (c + 1) := rfl

theorem decDigits_lt {n : Nat} (h : n < 10) :
    decDigits n = [Nat.digitChar n] := by
  unfold decDigits
  rw [dif_pos h]

theorem decDigits_ge {n : Nat} (h : ¬ n < 10) :
    decDigits n = decDigits (n / 10) ++ [Nat.digitChar (n % 10)] := by
  conv_lhs => rw [decDigits]
  rw [dif_neg h]

theorem toDigitsCore_eq_decDigits :
    ∀ (fuel n : Nat) (ds : List Char), n < fuel →
      Nat.toDigitsCore 10 fuel n ds = decDigits n ++ ds := by
  intro fuel
  induction fuel with
  | zero => intro n ds h; omega
  | succ f ih =>
    intro n ds h
    have hstep : Nat.toDigitsCore 10 (f + 1) n ds =
        if n / 10 = 0 then Nat.digitChar (n % 10) :: ds
        else Nat.toDigitsCore 10 f (n / 10) (Nat.digitChar (n % 10) :: ds) := rfl
    rw [hstep]
    by_cases hdiv : n / 10 = 0
    · rw [if_pos hdiv]
      have hn10 : n < 10 := by omega
      rw [decDigits_lt hn10, Nat.mod_eq_of_lt hn10]
      rfl
    · rw [if_neg hdiv]
      have h1 : n / 10 < f := by omega
      rw [ih (n / 10) (Nat.digitChar (n % 10) :: ds) h1]
      conv_rhs => rw [decDigits_ge (show ¬ n < 10 by omega)]
      rw [List.append_assoc]
      rfl

theorem toDigits_eq_decDigits (n : Nat) : Nat.toDigits 10 n = decDigits n := by
  have := toDigitsCore_eq_decDigits (n + 1) n [] (by omega)
  simpa [Nat.toDigits] using this

theorem digitChar_injOn_fin :
    ∀ a b : Fin 10, Nat.digitChar a.val = Nat.digitChar b.val → a = b := by
  decide

theorem digitChar_inj10 {a b : Nat} (ha : a < 10) (hb : b < 10)
    (h : Nat.digitChar a = Nat.digitChar b) : a = b :=
  congrArg Fin.val (digitChar_injOn_fin ⟨a, ha⟩ ⟨b, hb⟩ h)

theorem decDigits_ne_nil (n : Nat) : decDigits n ≠ [] := by
  by_cases h : n < 10
  · rw [decDigits_lt h]
    exact List.cons_ne_nil _ _
  · rw [decDigits_ge h]
    simp

theorem decDigits_inj (m : Nat) : ∀ n, decDigits m = decDigits n → m = n := by
  induction m using Nat.strong_induction_on with
  | _ m ih =>
    intro n h
    by_cases hm : m < 10 <;> by_cases hn : n < 10
    · rw [decDigits_lt hm, decDigits_lt hn] at h
      injection h with h1 _
      exact digitChar_inj10 hm hn h1
    · exfalso
      rw [decDigits_lt hm, decDigits_ge hn] at h
      have hlen := congrArg List.length h
      simp only [List.length_cons, List.length_append, List.length_nil] at hlen
      have h0 : (decDigits (n / 10)).length = 0 := by omega
      exact decDigits_ne_nil _ (List.length_eq_zero.mp h0)
    · exfalso
      rw [decDigits_ge hm, decDigits_lt hn] at h
      have hlen := congrArg List.length h
      simp only [List.length_cons, List.length_append, List.length_nil] at hlen
      have h0 : (decDigits (m / 10)).length = 0 := by omega
      exact decDigits_ne_nil _ (List.length_eq_zero.mp h0)
    · rw [decDigits_ge hm, decDigits_ge hn] at h
      obtain ⟨h1, h2⟩ := List.append_inj' h rfl
      have hdiv := ih (m / 10) (by omega) (n / 10) h1
      injection h2 with h3 _
      have hmod := digitChar_inj10 (Nat.mod_lt _ (by omega)) (Nat.mod_lt _ (by omega)) h3
      omega

theorem repr_inj {m n : Nat} (h : Nat.repr m = Nat.repr n) : m = n := by
  have hdata : Nat.toDigits 10 m = Nat.toDigits 10 n := by
    have h2 := congrArg String.data h
    simpa [Nat.repr, List.asString] using h2
  apply decDigits_inj m n
  rw [← toDigits_eq_decDigits, ← toDigits_eq_decDigits, hdata]

theorem numberedName_inj {base : String} {i j : Nat}
    (h : numberedName base i = numberedName base j) : i = j := by
  have hd := congrArg String.data h
  simp only [numberedName, String.data_append, List.append_assoc] at hd
  have h1 := List.append_cancel_left hd
  have h2 := List.append_cancel_left h1
  exact repr_inj (congrArg String.mk h2)

theorem numberedName_ne_base (base : String) (k : Nat) :
    numberedName base k ≠ base := by
  intro h
  have hd := congrArg (fun s : String => s.data.length) h
  simp only [numberedName, String.data_append, List.length_append] at hd
  have h1 : ("-" : String).data.length = 1 := rfl
  rw [h1] at hd
  omega

theorem uniqueNameLoop_none_subset {ex : List String} {base : String} :
    ∀ {fuel : Nat} {pn : String} {c : Nat},
      uniqueNameLoop ex base fuel pn c = none →
      ∀ s ∈ chainNames base fuel pn c, s ∈ ex := by
  intro fuel
  induction fuel with
  | zero => intro pn c h s hs; cases hs
  | succ f ih =>
    intro pn c h s hs
    rw [uniqueNameLoop_succ] at h
    rw [chainNames_succ] at hs
    by_cases hmem : pn ∈ ex
    · rw [if_pos hmem] at h
      rcases List.mem_cons.mp hs with rfl | hs2
      · exact hmem
      · exact ih h s hs2
    · rw [if_neg hmem] at h
      cases h

theorem chainNames_length (base : String) :
    ∀ (fuel : Nat) (pn : String) (c : Nat),
      (chainNames base fuel pn c).length = fuel := by
  intro fuel
  induction fuel with
  | zero => intro pn c; rfl
  | succ f ih =>
    intro pn c
    rw [chainNames_succ, List.length_cons, ih]

theorem chainNames_eq (base : String) :
    ∀ (f : Nat) (pn : String) (c : Nat),
      chainNames base (f + 1) pn c =
        pn :: (List.range' c f).map (numberedName base) := by
  intro f
  induction f with
  | zero => intro pn c; rfl
  | succ f ih =>
    intro pn c
    rw [chainNames_succ, ih (numberedName base c) (c + 1), List.range'_succ]
    rfl

theorem chainNames_nodup (base : String) (f c : Nat) :
    (chainNames base (f + 1) base c).Nodup := by
  rw [chainNames_eq]
  refine List.nodup_cons.mpr ⟨?_, ?_⟩
  · intro hmem
    obtain ⟨k, _, hkeq⟩ := List.mem_map.mp hmem
    exact numberedName_ne_base base k hkeq
  · exact (List.nodup_range' c f).map (fun i j hij => numberedName_inj hij)

theorem uniqueNameLoop_total (ex : List String) (base : String) :
    uniqueNameLoop ex base (ex.length + 1) base 2 ≠ none := by
  intro h
  have hsub := uniqueNameLoop_none_subset h
  have hnodup := chainNames_nodup base ex.length 2
  have hlen := chainNames_length base (ex.length + 1) base 2
  have hle := (hnodup.subperm (fun s hs => hsub s hs)).length_le
  rw [hlen] at hle
  omega

theorem uniqueNameLoop_some_spec {ex : List String} {base : String} :
    ∀ {fuel : Nat} {pn : String} {c : Nat} {name : String},
      uniqueNameLoop ex base fuel pn c = some name →
      name ∉ ex ∧ (pn ∉ ex → name = pn) ∧
      (pn ∈ ex → ∃ k, c ≤ k ∧ name = numberedName base k ∧
        ∀ j, c ≤ j → j < k → numberedName base j ∈ ex) := by
  intro fuel
  induction fuel with
  | zero => intro pn c name h; cases h
  | succ f ih =>
    intro pn c name h
    rw [uniqueNameLoop_succ] at h
    by_cases hmem : pn ∈ ex
    · rw [if_pos hmem] at h
      obtain ⟨h1, h2, h3⟩ := ih h
      refine ⟨h1, fun hn => absurd hmem hn, fun _ => ?_⟩
      by_cases hm2 : numberedName base c ∈ ex
      · obtain ⟨k, hk1, hk2, hk3⟩ := h3 hm2
        refine ⟨k, by omega, hk2, ?_⟩
        intro j hj1 hj2
        by_cases hjc : j = c
        · subst hjc; exact hm2
        · exact hk3 j (by omega) hj2
      · exact ⟨c, le_refl c, h2 hm2,
          fun j hj1 hj2 => absurd (lt_of_le_of_lt hj1 hj2) (lt_irrefl c)⟩
    · rw [if_neg hmem] at h
      injection h with h1
      subst h1
      exact ⟨hmem, fun _ => rfl, fun hc => absurd hc hmem⟩

end Utils

/-- Claim C10: for every base name and finite set of existing project
directories, `get_unique_project_name` returns a name whose directory does
not exist; it returns the base name itself when that directory does not
exist, and otherwise the first name of the form base-k, k counting up from
2, whose directory does not exist (every earlier candidate exists). -/
theorem c10_get_unique_project_name (ex : List String) (base : String) :
    ∃ name, Utils.get_unique_project_name ex base = some name ∧
      name ∉ ex ∧
      (base ∉ ex → name = base) ∧
      (base ∈ ex → ∃ k, 2 ≤ k ∧ name = Utils.numberedName base k ∧
        ∀ j, 2 ≤ j → j < k → Utils.numberedName base j ∈ ex) := by
  rcases h : Utils.uniqueNameLoop ex base (ex.length + 1) base 2 with _ | name
  · exact absurd h (Utils.uniqueNameLoop_total ex base)
  · obtain ⟨h1, h2, h3⟩ := Utils.uniqueNameLoop_some_spec h
    exact ⟨name, h, h1, h2, h3⟩

/-- Witness for claim C10 at a concrete base name and existing-directory
set. -/
theorem c10_get_unique_project_name_witness :
    ∃ name, Utils.get_unique_project_name ["pine", "pine-2"] "pine" = some name ∧
      name ∉ ["pine", "pine-2"] ∧
      ("pine" ∉ ["pine", "pine-2"] → name = "pine") ∧
      ("pine" ∈ ["pine", "pine-2"] → ∃ k, 2 ≤ k ∧
        name = Utils.numberedName "pine" k ∧
        ∀ j, 2 ≤ j → j < k → Utils.numberedName "pine" j ∈ ["pine", "pine-2"]) :=
  c10_get_unique_project_name ["pine", "pine-2"] "pine"

/-- Claim C9: for every input string, `sanitize_project_name` returns a
string containing only lowercase ASCII letters, digits and hyphens, that
neither starts nor ends with a hyphen, and the function is idempotent. -/
theorem c9_sanitize_project_name (s : String) :
    (∀ c ∈ (Utils.sanitize_project_name s).data, Utils.isAllowed c = true) ∧
    (Utils.sanitize_project_name s).data.head? ≠ some '-' ∧
    (Utils.sanitize_project_name s).data.getLast? ≠ some '-' ∧
    Utils.sanitize_project_name (Utils.sanitize_project_name s) =
      Utils.sanitize_project_name s := by
  have hdata : (Utils.sanitize_project_name s).data =
      Utils.stripHyphens
        ((Utils.collapseSeps (s.data.map Char.toLower)).filter Utils.isAllowed) := rfl
  have hall : ∀ c ∈ (Utils.sanitize_project_name s).data, Utils.isAllowed c = true := by
    intro c hc
    rw [hdata] at hc
    exact List.of_mem_filter (Utils.mem_stripHyphens hc)
  have hh : ∀ c, (Utils.sanitize_project_name s).data.head? = some c →
      (c == '-') = false := by
    intro c hc
    rw [hdata] at hc
    exact Utils.stripHyphens_head hc
  have hl : ∀ c, (Utils.sanitize_project_name s).data.getLast? = some c →
      (c == '-') = false := by
    intro c hc
    rw [hdata] at hc
    exact Utils.stripHyphens_getLast hc
  refine ⟨hall, ?_, ?_, Utils.sanitize_fixed _ hall hh hl⟩
  · intro hc
    have := hh '-' hc
    simp at this
  · intro hc
    have := hl '-' hc
    simp at this

/-- Witness for claim C5's amended theorem at concrete inputs: a one-slot
occupied table on the app.py side, and the always-free OS oracle with an
empty table on the main.py side. -/
theorem c5_none_iff_characterisation_witness :
    (VibeApp.find_available_port
        [(9000, { project_name := some "a", pid := some 1,
                  creation_time := some 0, public_url := none })] = none ↔
      ([(9000, { project_name := some "a", pid := some 1,
                 creation_time := some 0, public_url := none })] : Table) = []) ∧
    (VibeMain.find_available_port (fun _ => false) [] = none ↔
      ∀ p ∈ VibeMain.PREVIEW_PORT_RANGE,
        ((lookup ([] : Table) p).isNone && !((fun _ => false) p)) = false) :=
  ⟨c5_none_iff_characterisation.1 _ (by decide),
   c5_none_iff_characterisation.2 (fun _ => false) []⟩

end VibeCoder
